import Mathlib

/-!
# Verification of the batch-export stream transformer

Shallow embedding of `posthog/temporal/batch_exports/transformer.py`.

Conventions:
* Byte strings are modelled as `List Nat` (`Bytes`); a chunk of the output
  stream is a pair `(payload, is_boundary)` as in the Python code, which
  yields `tuple[bytes, bool]`.
* External libraries (orjson, stdlib json, gzip, brotli, pyarrow) are not
  part of the repository; they are modelled by executable Lean functions
  whose doc comments state which behaviour is taken from their documented
  interface and which byte-level details are abstracted.  No theorem below
  depends on the abstracted byte-level details.
-/

set_option maxRecDepth 8192

abbrev Bytes : Type := List Nat

abbrev Chunk : Type := Bytes × Bool

deriving instance DecidableEq for Except

/-! ## Segment controller (sequential path)

`StreamTransformer.iter_transformed_record_batches` (transformer.py lines
79-99) walks an async iterator of record batches.  For every chunk produced
by `transform_batch` it yields `(chunk, False)`, adds `len(chunk)` to
`current_file_size` and, still inside the per-chunk loop, checks
`if max_file_size_bytes and current_file_size > max_file_size_bytes`; when
the check fires it yields every chunk of `self.finalize()` as
`(chunk, False)`, then yields `(b"", True)` and resets
`current_file_size = 0`.  After the batch iterator is exhausted it yields
the chunks of one last `finalize()` call as `(chunk, False)`.

In the embedding a record batch is represented by the list of byte
fragments that `transform_batch` yields for it, and the output of one
`finalize()` call is the parameter `fin` (`finalize`, lines 101-104, yields
nothing unless the configured compression is brotli, in which case it
yields the trailing bytes of the brotli compressor; the value of `fin` is
irrelevant to the control flow being modelled). -/

/-- Inner per-chunk loop of the sequential
`iter_transformed_record_batches` (lines 86-96) over the fragments of one
batch: yields `(chunk, false)`, counts its length, and on overflow yields
the finalize output `fin` as non-boundary chunks followed by the boundary
chunk `([], true)`, resetting the counter.  Returns the produced chunks and
the final value of `current_file_size`. -/
def seqChunksBatchF (maxSize : Nat) (fin : List Bytes) :
    List Bytes → Nat → List Chunk × Nat
  | [], size => ([], size)
  | c :: cs, size =>
    let s1 := size + c.length
    if maxSize ≠ 0 ∧ s1 > maxSize then
      let r := seqChunksBatchF maxSize fin cs 0
      ((c, false) :: (fin.map (fun f => (f, false)) ++ ([], true) :: r.1), r.2)
    else
      let r := seqChunksBatchF maxSize fin cs s1
      ((c, false) :: r.1, r.2)

/-- Outer loop of the sequential `iter_transformed_record_batches` (lines
85-96): fold `seqChunksBatchF` over the list of batches, threading
`current_file_size`. -/
def seqChunksAuxF (maxSize : Nat) (fin : List Bytes) :
    List (List Bytes) → Nat → List Chunk × Nat
  | [], size => ([], size)
  | b :: bs, size =>
    let r := seqChunksBatchF maxSize fin b size
    let r2 := seqChunksAuxF maxSize fin bs r.2
    (r.1 ++ r2.1, r2.2)

/-- The full sequential `iter_transformed_record_batches` (lines 79-99):
the per-batch loop followed by the end-of-stream `finalize()` whose chunks
are yielded as non-boundary chunks (lines 98-99). -/
def seqChunksF (maxSize : Nat) (fin : List Bytes) (bs : List (List Bytes)) :
    List Chunk :=
  (seqChunksAuxF maxSize fin bs 0).1 ++ fin.map (fun f => (f, false))

/-- Sequential chunk stream for a JSONL transformer whose compression is
`None` or `"gzip"`: for those configurations `finalize` (lines 101-104)
yields no chunks, so `fin = []`. -/
def jsonlSeqChunks (maxSize : Nat) (bs : List (List Bytes)) : List Chunk :=
  seqChunksF maxSize [] bs

/-- Per-fragment rendering rule on the flattened fragment stream: yield the
fragment, count it, and immediately after a fragment that pushes the
counter over the limit yield `fin` as non-boundary chunks and one boundary
chunk, restarting the counter from zero.  This is the rule stated by the
amended claim C3, modelled from its words; the corresponding theorem below
proves that the code's controller implements it. -/
def renderFragsF (maxSize : Nat) (fin : List Bytes) :
    List Bytes → Nat → List Chunk
  | [], _ => []
  | c :: cs, size =>
    let s1 := size + c.length
    if maxSize ≠ 0 ∧ s1 > maxSize then
      (c, false) :: (fin.map (fun f => (f, false)) ++
        ([], true) :: renderFragsF maxSize fin cs 0)
    else
      (c, false) :: renderFragsF maxSize fin cs s1

/-- Value of `current_file_size` after processing a fragment stream. -/
def sizeAfter (maxSize : Nat) : List Bytes → Nat → Nat
  | [], size => size
  | c :: cs, size =>
    let s1 := size + c.length
    if maxSize ≠ 0 ∧ s1 > maxSize then sizeAfter maxSize cs 0
    else sizeAfter maxSize cs s1

/-- Chunk stream described by claim C3 as stated: the size check is made
only "after each batch's fragments are exhausted", and then finalize
output, one boundary chunk and the counter reset follow.  Modelled from the
claim's words, for comparison with the code's controller. -/
def claimedPerBatchChunks (maxSize : Nat) (fin : List Bytes) :
    List (List Bytes) → Nat → List Chunk
  | [], _ => []
  | b :: bs, size =>
    let s1 := size + (b.map List.length).sum
    let frags := b.map (fun c => ((c, false) : Chunk))
    if maxSize ≠ 0 ∧ s1 > maxSize then
      frags ++ fin.map (fun f => (f, false)) ++
        ([], true) :: claimedPerBatchChunks maxSize fin bs 0
    else
      frags ++ claimedPerBatchChunks maxSize fin bs s1

/-! ## Runs between boundary chunks (claim C4) -/

/-- Split a chunk stream into the runs of non-boundary payloads delimited
by boundary chunks.  The result always has at least one (possibly empty)
run; a boundary chunk's own (empty) payload belongs to no run. -/
def splitRuns : List Chunk → List (List Bytes)
  | [] => [[]]
  | (c, false) :: rest =>
    match splitRuns rest with
    | r :: rs => (c :: r) :: rs
    | [] => [[c]]
  | (_, true) :: rest => [] :: splitRuns rest

/-- Length of the last fragment of a run (0 for an empty run). -/
def lastLen (run : List Bytes) : Nat :=
  (run.getLast?.map List.length).getD 0

/-! ## Parallel pipeline (JSONL, non-brotli; claim C9)

`JSONLStreamTransformer.iter_transformed_record_batches` (lines 200-282)
runs a producer task that serializes each record batch into shared memory
and submits a transform job per batch to a process pool, pushing the
resulting future onto a bounded FIFO `asyncio.Queue` of capacity
`max_workers = 2`.  The consumer loop pops the oldest future, awaits it,
and re-emits its chunks, counting sizes and yielding `(b"", True)`
boundaries exactly like the sequential path (lines 273-280), except that
nothing is finalized for JSONL.

In the embedding, batch `j` is represented by the fragment list the worker
returns for it (`transform_record_batch_from_shared_memory` materializes
`list(transformer.transform_batch(record_batch))`).  Worker completion
order is left completely free: any submitted job may complete at any time,
but the consumer can only consume the job at the front of the FIFO queue,
and only once it has completed. -/

/-- Consumer-side re-emission of one job's chunks (lines 273-280). -/
def consumerBatch (maxSize : Nat) : List Bytes → Nat → List Chunk × Nat
  | [], size => ([], size)
  | c :: cs, size =>
    let s1 := size + c.length
    if maxSize ≠ 0 ∧ s1 > maxSize then
      let r := consumerBatch maxSize cs 0
      ((c, false) :: ([], true) :: r.1, r.2)
    else
      let r := consumerBatch maxSize cs s1
      ((c, false) :: r.1, r.2)

/-- Consumer emission folded over a list of job results in order. -/
def consumeFold (maxSize : Nat) : List (List Bytes) → Nat → List Chunk × Nat
  | [], size => ([], size)
  | b :: bs, size =>
    let r := consumerBatch maxSize b size
    let r2 := consumeFold maxSize bs r.2
    (r.1 ++ r2.1, r2.2)

/-- State of the parallel pipeline: how many batches the producer has
submitted, the FIFO queue of pending job indices (futures in submission
order), the set of jobs whose worker has completed, and the chunks emitted
so far together with `current_file_size`. -/
structure PipeState where
  submitted : Nat
  queue : List Nat
  completed : List Nat
  out : List Chunk
  size : Nat
deriving DecidableEq

/-- Initial pipeline state. -/
def initPipe : PipeState := ⟨0, [], [], [], 0⟩

/-- One step of the parallel pipeline.  `submit`: the producer hands the
next batch to a worker and puts its future on the bounded queue (capacity
2 = `max_workers`).  `complete`: any submitted, still-pending job finishes
in a worker — this is the only source of nondeterminism, and it is
unconstrained, modelling arbitrary worker completion order.  `consume`: the
consumer pops the oldest future, which must have completed, and re-emits
its chunks. -/
inductive PipeStep (bs : List (List Bytes)) (maxSize : Nat) :
    PipeState → PipeState → Prop where
  | submit (s : PipeState)
      (h1 : s.submitted < bs.length) (h2 : s.queue.length < 2) :
      PipeStep bs maxSize s
        { s with submitted := s.submitted + 1,
                 queue := s.queue ++ [s.submitted] }
  | complete (s : PipeState) (j : Nat)
      (h1 : j ∈ s.queue) (h2 : j ∉ s.completed) :
      PipeStep bs maxSize s { s with completed := j :: s.completed }
  | consume (s : PipeState) (j : Nat) (rest : List Nat)
      (h1 : s.queue = j :: rest) (h2 : j ∈ s.completed) :
      PipeStep bs maxSize s
        { s with queue := rest,
                 out := s.out ++ (consumerBatch maxSize (bs.getD j []) s.size).1,
                 size := (consumerBatch maxSize (bs.getD j []) s.size).2 }

/-- Reachability of a pipeline state from the initial state. -/
def ReachPipe (bs : List (List Bytes)) (maxSize : Nat) (s : PipeState) : Prop :=
  Relation.ReflTransGen (PipeStep bs maxSize) initPipe s

/-- Invariant of the parallel pipeline: the queue holds exactly the
consecutive job indices that have been submitted but not consumed, and the
output plus size counter are exactly what consuming the prefix of already
consumed batches produces. -/
def PipeInv (bs : List (List Bytes)) (maxSize : Nat) (s : PipeState) : Prop :=
  s.queue.length ≤ s.submitted
  ∧ s.submitted ≤ bs.length
  ∧ s.queue = List.range' (s.submitted - s.queue.length) s.queue.length
  ∧ s.out = (consumeFold maxSize (bs.take (s.submitted - s.queue.length)) 0).1
  ∧ s.size = (consumeFold maxSize (bs.take (s.submitted - s.queue.length)) 0).2

/-! ## Shared-memory handoff (claim C1)

The producer side (lines 227-251) creates a named shared-memory region
sized to the serialized batch, writes the batch into it, submits the
region's name with the transform job, and in its `finally` block closes its
local handle (`shm.close()`); it never calls `unlink`.  The worker side
(`transform_record_batch_from_shared_memory`, lines 342-371) opens the
region by name, reads the batch, runs the transformer, and in its `finally`
block both closes its handle and calls `shm.unlink()` — also when the
transformation raised after the region was opened.  The event lists below
transcribe these two code paths; `ok` records whether the worker's
transform step completed or raised. -/

inductive ShmParty where
  | producer
  | worker
deriving DecidableEq

inductive ShmAction where
  | create
  | writeBatch
  | submitJob
  | closeHandle
  | unlinkRegion
  | openByName
  | readBatch
  | transformRun
deriving DecidableEq

structure ShmEvent where
  party : ShmParty
  action : ShmAction
deriving DecidableEq

/-- Shared-memory events of the producer for one batch (lines 227-251):
create the region, write the serialized batch, submit the job, and in
`finally` close the local handle.  No unlink. -/
def producerShmEvents : List ShmEvent :=
  [⟨.producer, .create⟩, ⟨.producer, .writeBatch⟩,
   ⟨.producer, .submitJob⟩, ⟨.producer, .closeHandle⟩]

/-- Shared-memory events of a worker that successfully opened the region by
name (lines 342-371): open, read the batch, run the transform if it does
not raise, and in `finally` close the handle and unlink the region —
unconditionally, whether or not the transform step raised. -/
def workerShmEvents (ok : Bool) : List ShmEvent :=
  [⟨.worker, .openByName⟩, ⟨.worker, .readBatch⟩]
    ++ (if ok then [⟨.worker, .transformRun⟩] else [])
    ++ [⟨.worker, .closeHandle⟩, ⟨.worker, .unlinkRegion⟩]

/-- All shared-memory events of one handoff, producer side then worker
side. -/
def handoffEvents (ok : Bool) : List ShmEvent :=
  producerShmEvents ++ workerShmEvents ok

/-! ## Transformer construction, compression and finalization (C2, C5)

`StreamTransformer.__init__` (lines 65-69) stores the lower-cased
compression name and `include_inserted_at`, and initializes
`_brotli_compressor = None`.  `get_stream_transformer` (lines 46-59)
dispatches on the lower-cased format name.  The compression name is not
validated anywhere at construction time. -/

/-- A pyarrow schema, reduced to its column names (its only aspect the
transformer code touches). -/
structure PaSchema where
  names : List String
deriving DecidableEq

/-- State of one `brotli.Compressor` object.  Modelled from the external
brotli library's documented streaming interface: `process` feeds bytes and
raises on a finished compressor, `flush` returns whatever output the
library is willing to release, and `finish` flushes the remaining bytes and
terminates the stream, after which the object is unusable.  The compressed
byte content is abstracted: the model retains fed bytes verbatim and
releases all of them on `flush`/`finish`.  No theorem depends on the byte
content, only on the object lifecycle. -/
structure BrotliC where
  pending : Bytes
  finished : Bool
deriving DecidableEq

/-- A fresh `brotli.Compressor()`. -/
def BrotliC.new : BrotliC := ⟨[], false⟩

/-- `Compressor.process`: raises on a finished compressor. -/
def BrotliC.process (c : BrotliC) (b : Bytes) : Except String BrotliC :=
  if c.finished then .error "BrotliError: Compressor is finished"
  else .ok { c with pending := c.pending ++ b }

/-- `Compressor.flush`: release pending output. -/
def BrotliC.flush (c : BrotliC) : BrotliC × Bytes :=
  ({ c with pending := [] }, c.pending)

/-- `Compressor.finish`: flush trailing bytes and terminate the stream;
raises if the compressor is already finished. -/
def BrotliC.finish (c : BrotliC) : Except String (BrotliC × Bytes) :=
  if c.finished then .error "BrotliError: Compressor is finished"
  else .ok ({ pending := [], finished := true }, c.pending)

inductive TKind where
  | jsonl
  | parquet
deriving DecidableEq

/-- State of one `StreamTransformer` instance: the concrete subclass
(`JSONLStreamTransformer` or `ParquetStreamTransformer`), the stored
(lower-cased) compression name, `include_inserted_at`, the Parquet schema
if any, and the `_brotli_compressor` slot (line 69, initially `None`). -/
structure StreamTransformer where
  kind : TKind
  compression : Option String
  includeInsertedAt : Bool
  schema : Option PaSchema
  brotliCompressor : Option BrotliC
deriving DecidableEq

/-- Python `str.lower()` on the ASCII configuration names handled here,
character by character.  (Defined over the character list rather than with
`String.toLower` so that it reduces inside the kernel.) -/
def pyLower (s : String) : String :=
  ⟨s.data.map Char.toLower⟩

/-- `get_stream_transformer` (lines 46-59): dispatch on the lower-cased
format name; `"parquet"` without a schema and unknown formats raise
`ValueError`.  `__init__` (line 66) lower-cases the compression name but
does not validate it. -/
def get_stream_transformer (format : String) (compression : Option String)
    (schema : Option PaSchema) (includeInsertedAt : Bool) :
    Except String StreamTransformer :=
  if pyLower format = "jsonlines" then
    .ok { kind := .jsonl, compression := compression.map pyLower,
          includeInsertedAt := includeInsertedAt, schema := none,
          brotliCompressor := none }
  else if pyLower format = "parquet" then
    match schema with
    | none => .error "Schema is required for Parquet"
    | some s =>
      .ok { kind := .parquet, compression := compression.map pyLower,
            includeInsertedAt := includeInsertedAt, schema := some s,
            brotliCompressor := none }
  else .error ("Unsupported format: " ++ format)

/-- The `brotli_compressor` property (lines 128-132): lazily create the
compressor on first access. -/
def StreamTransformer.brotli_compressor (t : StreamTransformer) : BrotliC :=
  t.brotliCompressor.getD BrotliC.new

/-- `StreamTransformer.compress` (lines 111-126): gzip compresses the block
with the external gzip library, brotli feeds the lazily-created streaming
compressor and returns its flushed output, `None` is the identity, and any
other stored compression name raises `ValueError` — at the first call, not
at construction.  The external gzip block compression is abstracted as the
identity on bytes; no theorem depends on its output. -/
def StreamTransformer.compress (t : StreamTransformer) (content : Bytes) :
    Except String (StreamTransformer × Bytes) :=
  match t.compression with
  | some "gzip" => .ok (t, content)
  | some "brotli" =>
    match t.brotli_compressor.process content with
    | .error e => .error e
    | .ok c1 =>
      let fl := c1.flush
      .ok ({ t with brotliCompressor := some fl.1 }, fl.2)
  | none => .ok (t, content)
  | some other => .error ("Unsupported compression: '" ++ other ++ "'")

/-- `StreamTransformer.finalize` (lines 101-104): when the configured
compression is brotli, yield `self.brotli_compressor.finish()`.  The
`_brotli_compressor` slot keeps referencing the (now finished, mutated
in place) compressor object: `finalize` never assigns `None` to it. -/
def StreamTransformer.finalize (t : StreamTransformer) :
    Except String (StreamTransformer × List Bytes) :=
  if t.compression = some "brotli" then
    match t.brotli_compressor.finish with
    | .error e => .error e
    | .ok r => .ok ({ t with brotliCompressor := some r.1 }, [r.2])
  else .ok (t, [])

/-- `StreamTransformer.finish_brotli_compressor` (lines 134-140): raises
`ValueError` when the configured compression is not brotli; otherwise
yields the compressor's trailing bytes and sets `_brotli_compressor = None`
so a later use lazily recreates a fresh compressor. -/
def StreamTransformer.finish_brotli_compressor (t : StreamTransformer) :
    Except String (StreamTransformer × List Bytes) :=
  if t.compression ≠ some "brotli" then
    .error "ValueError: Compression is not 'brotli'"
  else
    match t.brotli_compressor.finish with
    | .error e => .error e
    | .ok r => .ok ({ t with brotliCompressor := none }, [r.2])

/-! ## Record batches and `transform_batch` (claim C10)

A pyarrow `RecordBatch` is modelled by its row count and its named columns
of JSON-like values.  `transform_batch` (lines 71-77) copies the column
name list, and — unless `include_inserted_at` is set — removes the
`"_inserted_at"` entry with `column_names.pop(column_names.index(...))`;
`list.index` raises `ValueError` when the name is absent.  The batch is
then passed through `batch.select(column_names)` to the subclass's
`write_batch`. -/

/-! JSON-like values, the row/cell data of the embedding.  Strings are
lists of Unicode code points (so that lone surrogates, which are legal in
Python `str` but not encodable to UTF-8, are representable).  Defined
mutually with array and object spine types to keep all recursion
structural. -/

mutual

inductive JVal where
  | str (s : List Nat)
  | num (n : Int)
  | null
  | arr (xs : JArr)
  | obj (kvs : JObj)

inductive JArr where
  | nil
  | cons (x : JVal) (xs : JArr)

inductive JObj where
  | nil
  | cons (k : List Nat) (v : JVal) (kvs : JObj)

end

/-- A pyarrow `RecordBatch`: a stored row count and named columns. -/
structure RecordBatch where
  numRows : Nat
  cols : List (String × List JVal)

/-- `batch.column_names`. -/
def RecordBatch.column_names (b : RecordBatch) : List String :=
  b.cols.map (fun c => c.1)

/-- `batch.select(names)`: keep the named columns, in the order given. -/
def RecordBatch.select (b : RecordBatch) (names : List String) : RecordBatch :=
  ⟨b.numRows, names.filterMap (fun n => b.cols.find? (fun c => c.1 == n))⟩

/-- Errors raised by the embedded Python code paths. -/
inductive PyErr where
  | valueError
  | jsonRecursion
  | jsonInvalid
  | typeError
deriving DecidableEq

/-- `StreamTransformer.transform_batch` (lines 71-77), parameterized by the
subclass's `write_batch`: drop the `"_inserted_at"` column unless
`include_inserted_at` is set, raising `ValueError` (from `list.index`) if
it is absent, then hand the selected batch to `write_batch`. -/
def StreamTransformer.transform_batch
    (write_batch : RecordBatch → Except PyErr (List Bytes))
    (t : StreamTransformer) (batch : RecordBatch) :
    Except PyErr (List Bytes) :=
  let column_names := batch.column_names
  if t.includeInsertedAt then write_batch (batch.select column_names)
  else
    match column_names.findIdx? (fun n => n == "_inserted_at") with
    | none => .error .valueError
    | some i => write_batch (batch.select (column_names.eraseIdx i))

/-! ## The JSONL codec and its encoder fallbacks (claims C6, C7, C8) -/

/-- Code points of a Lean string literal, used for Python string
constants. -/
def pyStr (s : String) : List Nat :=
  s.data.map Char.toNat

/-- A code point that cannot be encoded to UTF-8: the surrogate range
U+D800 – U+DFFF.  Lone surrogates are exactly the code points a Python
`str` can hold that `str.encode("utf-8")` rejects. -/
def isSurrogate (c : Nat) : Bool :=
  decide (0xD800 ≤ c) && decide (c ≤ 0xDFFF)

/-- `s.encode("utf-8", "replace").decode("utf-8")` on one string: CPython's
`"replace"` error handler substitutes `"?"` (code point 0x3F) for each
character the encoder rejects, so each lone surrogate becomes one `'?'`;
every other code point round-trips unchanged. -/
def cleanStr (s : List Nat) : List Nat :=
  s.map (fun c => if isSurrogate c then 0x3F else c)

/-- Does the string contain a lone surrogate? -/
def strHasSurr (s : List Nat) : Bool :=
  s.any isSurrogate

mutual

/-- `replace_broken_unicode` (lines 24-32): recursively re-encode every
string in the value with the `"replace"` error handler, descending into
lists and into both keys and values of dicts; anything else is returned
unchanged. -/
def replace_broken_unicode : JVal → JVal
  | .str s => .str (cleanStr s)
  | .num n => .num n
  | .null => .null
  | .arr xs => .arr (replace_broken_unicodeArr xs)
  | .obj kvs => .obj (replace_broken_unicodeObj kvs)

/-- `replace_broken_unicode` on a list. -/
def replace_broken_unicodeArr : JArr → JArr
  | .nil => .nil
  | .cons x xs => .cons (replace_broken_unicode x) (replace_broken_unicodeArr xs)

/-- `replace_broken_unicode` on a dict: keys and values. -/
def replace_broken_unicodeObj : JObj → JObj
  | .nil => .nil
  | .cons k v kvs =>
    .cons (cleanStr k) (replace_broken_unicode v) (replace_broken_unicodeObj kvs)

end

mutual

/-- Container nesting depth of a value (strings and scalars are flat). -/
def jdepth : JVal → Nat
  | .str _ => 0
  | .num _ => 0
  | .null => 0
  | .arr xs => 1 + jdepthArr xs
  | .obj kvs => 1 + jdepthObj kvs

/-- Maximal depth of a list's elements. -/
def jdepthArr : JArr → Nat
  | .nil => 0
  | .cons x xs => max (jdepth x) (jdepthArr xs)

/-- Maximal depth of a dict's values. -/
def jdepthObj : JObj → Nat
  | .nil => 0
  | .cons _ v kvs => max (jdepth v) (jdepthObj kvs)

end

mutual

/-- Does the value contain a lone surrogate in any string, key or value? -/
def jhasSurr : JVal → Bool
  | .str s => strHasSurr s
  | .num _ => false
  | .null => false
  | .arr xs => jhasSurrArr xs
  | .obj kvs => jhasSurrObj kvs

/-- `jhasSurr` over a list. -/
def jhasSurrArr : JArr → Bool
  | .nil => false
  | .cons x xs => jhasSurr x || jhasSurrArr xs

/-- `jhasSurr` over a dict. -/
def jhasSurrObj : JObj → Bool
  | .nil => false
  | .cons k v kvs => strHasSurr k || jhasSurr v || jhasSurrObj kvs

end

/-- Decimal digits of an integer, as code points. -/
def intDigits (n : Int) : List Nat :=
  let ds := ((Nat.digits 10 n.natAbs).reverse.map (fun d => d + 48))
  let ds := if ds = [] then [48] else ds
  if n < 0 then 45 :: ds else ds

mutual

/-- JSON text of a value, as produced by the external encoders.  Modelled
from the encoders' documented output shape: `"…"` for strings, decimal for
numbers, `null`, `[…]` with comma separators, `{"k":v,…}` for dicts.
String escaping is abstracted (code points appear verbatim between the
quotes); no theorem depends on the escaped spelling, only on presence and
count of code points. -/
def jserialize : JVal → List Nat
  | .str s => 34 :: (s ++ [34])
  | .num n => intDigits n
  | .null => pyStr "null"
  | .arr xs => 91 :: (jserializeArr xs ++ [93])
  | .obj kvs => 123 :: (jserializeObj kvs ++ [125])

/-- Comma-separated serialization of array elements. -/
def jserializeArr : JArr → List Nat
  | .nil => []
  | .cons x .nil => jserialize x
  | .cons x (.cons y ys) =>
    jserialize x ++ 44 :: jserializeArr (.cons y ys)

/-- Comma-separated serialization of dict entries. -/
def jserializeObj : JObj → List Nat
  | .nil => []
  | .cons k v .nil => 34 :: (k ++ 34 :: 58 :: jserialize v)
  | .cons k v (.cons k2 v2 kvs) =>
    (34 :: (k ++ 34 :: 58 :: jserialize v)) ++
      44 :: jserializeObj (.cons k2 v2 kvs)

end

/-- Failure modes of the strict encoder. -/
inductive OrjsonErr where
  | recursionLimit
  | invalidUtf8
deriving DecidableEq

/-- `orjson.dumps`, modelled from the external orjson library as the code
relies on it: it raises `JSONEncodeError` with message "Recursion limit
reached" when container nesting exceeds its fixed limit of 256 (see the
comment at lines 152-154), and raises on strings that are not valid
UTF-8 — in practice lone surrogate code points (lines 179-181).  On
success it returns the JSON text. -/
def orjsonDumps (d : JVal) : Except OrjsonErr Bytes :=
  if jdepth d > 256 then .error .recursionLimit
  else if jhasSurr d then .error .invalidUtf8
  else .ok (jserialize d)

/-- Stdlib `json.dumps(d, default=str).encode("utf-8")`, modelled from the
stdlib's documented behaviour: no recursion limit relevant here and, with
`ensure_ascii` defaulting to true, lone surrogates are emitted as escape
sequences rather than rejected — the call never raises on these inputs.
The byte-level output is abstracted by the same serializer. -/
def json_dumps_stdlib (d : JVal) : Bytes :=
  jserialize d

/-- Dict lookup: first binding of the key, if any. -/
def objGet : JObj → List Nat → Option JVal
  | .nil, _ => none
  | .cons k v kvs, key => if k == key then some v else objGet kvs key

/-- Does the dict bind the key? -/
def objHas : JObj → List Nat → Bool
  | .nil, _ => false
  | .cons k _ kvs, key => k == key || objHas kvs key

/-- Replace the value bound to the key (first binding). -/
def objSet : JObj → List Nat → JVal → JObj
  | .nil, _, _ => .nil
  | .cons k v kvs, key, w =>
    if k == key then .cons k w kvs else .cons k v (objSet kvs key w)

/-- `del d[key]`: remove the first binding of the key. -/
def objDel : JObj → List Nat → JObj
  | .nil, _ => .nil
  | .cons k v kvs, key =>
    if k == key then kvs else .cons k v (objDel kvs key)

/-- `d.get("event", None) == "$web_vitals"` (line 155). -/
def isWebVitals (r : JObj) : Bool :=
  match objGet r (pyStr "event") with
  | some (.str s) => s == pyStr "$web_vitals"
  | _ => false

/-- Errors of a Python subscription/`del` chain. -/
inductive DelErr where
  | keyError
  | typeError
deriving DecidableEq

/-- `del d["properties"]["$web_vitals_INP_event"]["attribution"]
["interactionTargetElement"]` (line 161): each subscription raises
`KeyError` when a dict lacks the key and `TypeError` when the subscripted
value is not a dict; only `KeyError` is caught by the surrounding
`except KeyError` (lines 160-162).  The successful deletion rebuilds the
row with the nested subtree removed. -/
def delNested (r : JObj) : Except DelErr JObj :=
  match objGet r (pyStr "properties") with
  | none => .error .keyError
  | some (.obj p) =>
    match objGet p (pyStr "$web_vitals_INP_event") with
    | none => .error .keyError
    | some (.obj w) =>
      match objGet w (pyStr "attribution") with
      | none => .error .keyError
      | some (.obj a) =>
        if objHas a (pyStr "interactionTargetElement") then
          .ok (objSet r (pyStr "properties")
            (.obj (objSet p (pyStr "$web_vitals_INP_event")
              (.obj (objSet w (pyStr "attribution")
                (.obj (objDel a (pyStr "interactionTargetElement"))))))))
        else .error .keyError
      | some _ => .error .typeError
    | some _ => .error .typeError
  | some _ => .error .typeError

/-- `JSONLStreamTransformer._write_dict` (lines 144-185) for the
compression-`None` configuration, in which `_write` (lines 195-198) yields
its input unchanged: encode one row with strict orjson and append the
newline; on "Recursion limit reached", try the `$web_vitals` structural
repair (retrying strict orjson after the deletion, whose failure — like a
`TypeError` from the subscription chain — propagates uncaught) or fall
back to the depth-unlimited stdlib encoder; on any other encode error,
sanitize the unicode and retry strict orjson (a second failure propagates
uncaught).  On success exactly one newline-terminated line is produced. -/
def write_dict (r : JObj) : Except PyErr Bytes :=
  match orjsonDumps (.obj r) with
  | .ok out => .ok (out ++ [10])
  | .error .recursionLimit =>
    if isWebVitals r then
      match delNested r with
      | .ok r2 =>
        match orjsonDumps (.obj r2) with
        | .ok out => .ok (out ++ [10])
        | .error .recursionLimit => .error .jsonRecursion
        | .error .invalidUtf8 => .error .jsonInvalid
      | .error .keyError => .ok (json_dumps_stdlib (.obj r) ++ [10])
      | .error .typeError => .error .typeError
    else .ok (json_dumps_stdlib (.obj r) ++ [10])
  | .error .invalidUtf8 =>
    match orjsonDumps (.obj (replace_broken_unicodeObj r)) with
    | .ok out => .ok (out ++ [10])
    | .error .recursionLimit => .error .jsonRecursion
    | .error .invalidUtf8 => .error .jsonInvalid

/-- Is the row dict empty (falsy in Python)? -/
def isEmptyObj : JObj → Bool
  | .nil => true
  | .cons _ _ _ => false

/-- One row of `record_batch.to_pylist()`: the dict mapping each column
name to that column's value at the row index (missing cells, which a
well-formed batch does not have, read as `null`). -/
def rowAt (cols : List (String × List JVal)) (i : Nat) : JObj :=
  match cols with
  | [] => .nil
  | c :: cs => .cons (pyStr c.1) (c.2.getD i .null) (rowAt cs i)

/-- `record_batch.to_pylist()`: one dict per row.  A batch with no columns
still reports its row count, so it yields that many empty dicts. -/
def RecordBatch.to_pylist (b : RecordBatch) : List JObj :=
  (List.range b.numRows).map (rowAt b.cols)

/-- The row loop of `JSONLStreamTransformer.write_batch` (lines 187-193):
rows that are falsy (empty dicts) are skipped with `continue`; each other
row is written through `_write_dict`. -/
def writeRows : List JObj → Except PyErr (List Bytes)
  | [] => .ok []
  | r :: rs =>
    if isEmptyObj r then writeRows rs
    else
      match write_dict r with
      | .error e => .error e
      | .ok line =>
        match writeRows rs with
        | .error e => .error e
        | .ok rest => .ok (line :: rest)

/-- `JSONLStreamTransformer.write_batch` (lines 187-193), compression
`None`. -/
def jsonl_write_batch (b : RecordBatch) : Except PyErr (List Bytes) :=
  writeRows b.to_pylist

/-! ## Structural facts about `replace_broken_unicode`

These are proved by the same structural recursion as the functions
themselves (Prop-valued definitions so the recursion over the mutual
`JVal`/`JArr`/`JObj` types stays structural). -/

/-- Cleaning a string removes every lone surrogate. -/
def strHasSurr_cleanStr (s : List Nat) : strHasSurr (cleanStr s) = false := by
  simp only [cleanStr, strHasSurr, List.any_map, List.any_eq_false,
    Function.comp_apply]
  intro x _
  by_cases h : isSurrogate x = true
  · simp only [h, if_true]
    decide
  · simp [h]

/-- Cleaning preserves string length (replacement, not omission). -/
def length_cleanStr (s : List Nat) : (cleanStr s).length = s.length := by
  simp [cleanStr]

mutual

/-- `replace_broken_unicode` does not change container nesting depth. -/
def jdepth_replace : ∀ d : JVal,
    jdepth (replace_broken_unicode d) = jdepth d
  | .str _ => rfl
  | .num _ => rfl
  | .null => rfl
  | .arr xs => by
    simp [replace_broken_unicode, jdepth, jdepthArr_replace xs]
  | .obj kvs => by
    simp [replace_broken_unicode, jdepth, jdepthObj_replace kvs]

/-- Depth preservation over array spines. -/
def jdepthArr_replace : ∀ xs : JArr,
    jdepthArr (replace_broken_unicodeArr xs) = jdepthArr xs
  | .nil => rfl
  | .cons x xs => by
    simp [replace_broken_unicodeArr, jdepthArr, jdepth_replace x,
      jdepthArr_replace xs]

/-- Depth preservation over object spines. -/
def jdepthObj_replace : ∀ kvs : JObj,
    jdepthObj (replace_broken_unicodeObj kvs) = jdepthObj kvs
  | .nil => rfl
  | .cons _ v kvs => by
    simp [replace_broken_unicodeObj, jdepthObj, jdepth_replace v,
      jdepthObj_replace kvs]

end

mutual

/-- After `replace_broken_unicode` no lone surrogate remains anywhere. -/
def jhasSurr_replace : ∀ d : JVal,
    jhasSurr (replace_broken_unicode d) = false
  | .str s => strHasSurr_cleanStr s
  | .num _ => rfl
  | .null => rfl
  | .arr xs => by
    simpa [replace_broken_unicode, jhasSurr] using jhasSurrArr_replace xs
  | .obj kvs => by
    simpa [replace_broken_unicode, jhasSurr] using jhasSurrObj_replace kvs

/-- Surrogate removal over array spines. -/
def jhasSurrArr_replace : ∀ xs : JArr,
    jhasSurrArr (replace_broken_unicodeArr xs) = false
  | .nil => rfl
  | .cons x xs => by
    simp [replace_broken_unicodeArr, jhasSurrArr, jhasSurr_replace x,
      jhasSurrArr_replace xs]

/-- Surrogate removal over object spines (keys and values). -/
def jhasSurrObj_replace : ∀ kvs : JObj,
    jhasSurrObj (replace_broken_unicodeObj kvs) = false
  | .nil => rfl
  | .cons k v kvs => by
    simp [replace_broken_unicodeObj, jhasSurrObj, strHasSurr_cleanStr k,
      jhasSurr_replace v, jhasSurrObj_replace kvs]

end

mutual

/-- `replace_broken_unicode` preserves the length of the serialized JSON
text: each rejected code point is replaced by exactly one `'?'`, never
dropped. -/
def jserialize_length_replace : ∀ d : JVal,
    (jserialize (replace_broken_unicode d)).length = (jserialize d).length
  | .str s => by
    simp [replace_broken_unicode, jserialize, length_cleanStr s]
  | .num _ => rfl
  | .null => rfl
  | .arr xs => by
    simp [replace_broken_unicode, jserialize, jserializeArr_length_replace xs]
  | .obj kvs => by
    simp [replace_broken_unicode, jserialize, jserializeObj_length_replace kvs]

/-- Serialized-length preservation over array spines. -/
def jserializeArr_length_replace : ∀ xs : JArr,
    (jserializeArr (replace_broken_unicodeArr xs)).length
      = (jserializeArr xs).length
  | .nil => rfl
  | .cons x .nil => by
    simp [replace_broken_unicodeArr, jserializeArr,
      jserialize_length_replace x]
  | .cons x (.cons y ys) => by
    have ihx := jserialize_length_replace x
    have ih := jserializeArr_length_replace (JArr.cons y ys)
    simp [replace_broken_unicodeArr, jserializeArr] at ih ⊢
    omega

/-- Serialized-length preservation over object spines. -/
def jserializeObj_length_replace : ∀ kvs : JObj,
    (jserializeObj (replace_broken_unicodeObj kvs)).length
      = (jserializeObj kvs).length
  | .nil => rfl
  | .cons k v .nil => by
    simp [replace_broken_unicodeObj, jserializeObj, length_cleanStr k,
      jserialize_length_replace v]
  | .cons k v (.cons k2 v2 kvs) => by
    have ihv := jserialize_length_replace v
    have ihk := length_cleanStr k
    have ih := jserializeObj_length_replace (JObj.cons k2 v2 kvs)
    simp [replace_broken_unicodeObj, jserializeObj] at ih ⊢
    omega

end

/-! ## Concrete example values for counterexamples and witnesses -/

/-- A value nested `n` containers deep. -/
def deepNest : Nat → JVal
  | 0 => .null
  | n + 1 => .arr (.cons (deepNest n) .nil)

/-- A `$web_vitals` row that carries the expected
`properties.$web_vitals_INP_event.attribution.interactionTargetElement`
subtree and, next to it, an unrelated value nested 260 containers deep.
Strict encoding fails with the recursion-limit error; after the known
subtree is deleted the row is still too deep and the retried strict
encoding fails again. -/
def webVitalsDeepRow : JObj :=
  .cons (pyStr "event") (.str (pyStr "$web_vitals"))
    (.cons (pyStr "properties")
      (.obj (.cons (pyStr "$web_vitals_INP_event")
        (.obj (.cons (pyStr "attribution")
          (.obj (.cons (pyStr "interactionTargetElement") .null .nil)) .nil))
        (.cons (pyStr "other") (deepNest 260) .nil)))
      .nil)

/-- A row whose only defect is a lone surrogate: `{"a": "\ud800"}`. -/
def surrogateRow : JObj :=
  .cons (pyStr "a") (.str [0xD800]) .nil

/-- A non-`$web_vitals` row that exceeds the strict encoder's recursion
limit: `{"x": <258 nested lists>}`. -/
def plainDeepRow : JObj :=
  .cons (pyStr "x") (deepNest 258) .nil

/-- Input batches for the parallel-pipeline witness trace: two batches,
one fragment each. -/
def pipeBs : List (List Bytes) := [[[1]], [[2]]]

/-- Final state of the witness trace over `pipeBs` in which worker 1
completed before worker 0. -/
def pipeFinal : PipeState :=
  ⟨2, [], [0, 1], [([1], false), ([2], false)], 2⟩

/-! ## Theorems -/

theorem seqChunksBatchF_eq_render (maxSize : Nat) (fin : List Bytes) :
    ∀ (cs : List Bytes) (size : Nat),
      seqChunksBatchF maxSize fin cs size
        = (renderFragsF maxSize fin cs size, sizeAfter maxSize cs size) := by
  intro cs
  induction cs with
  | nil => intro size; rfl
  | cons c cs ih =>
    intro size
    by_cases h : maxSize ≠ 0 ∧ size + c.length > maxSize <;>
      simp [seqChunksBatchF, renderFragsF, sizeAfter, h, ih]

theorem renderFragsF_append (maxSize : Nat) (fin : List Bytes) :
    ∀ (xs ys : List Bytes) (size : Nat),
      renderFragsF maxSize fin (xs ++ ys) size
        = renderFragsF maxSize fin xs size
          ++ renderFragsF maxSize fin ys (sizeAfter maxSize xs size) := by
  intro xs
  induction xs with
  | nil => intro ys size; simp [renderFragsF, sizeAfter]
  | cons c cs ih =>
    intro ys size
    by_cases h : maxSize ≠ 0 ∧ size + c.length > maxSize <;>
      simp [renderFragsF, sizeAfter, h, ih]

theorem sizeAfter_append (maxSize : Nat) :
    ∀ (xs ys : List Bytes) (size : Nat),
      sizeAfter maxSize (xs ++ ys) size
        = sizeAfter maxSize ys (sizeAfter maxSize xs size) := by
  intro xs
  induction xs with
  | nil => intro ys size; simp [sizeAfter]
  | cons c cs ih =>
    intro ys size
    by_cases h : maxSize ≠ 0 ∧ size + c.length > maxSize <;>
      simp [sizeAfter, h, ih]

theorem seqChunksAuxF_eq_render (maxSize : Nat) (fin : List Bytes) :
    ∀ (bs : List (List Bytes)) (size : Nat),
      seqChunksAuxF maxSize fin bs size
        = (renderFragsF maxSize fin bs.flatten size,
           sizeAfter maxSize bs.flatten size) := by
  intro bs
  induction bs with
  | nil => intro size; simp [seqChunksAuxF, renderFragsF, sizeAfter]
  | cons b bs ih =>
    intro size
    simp [seqChunksAuxF, seqChunksBatchF_eq_render, ih,
      renderFragsF_append, sizeAfter_append]

theorem renderFragsF_boundary_empty (maxSize : Nat) (fin : List Bytes) :
    ∀ (frags : List Bytes) (size : Nat) (p : Chunk),
      p ∈ renderFragsF maxSize fin frags size → p.2 = true → p.1 = [] := by
  intro frags
  induction frags with
  | nil => intro size p hp; simp [renderFragsF] at hp
  | cons c cs ih =>
    intro size p hp hb
    by_cases h : maxSize ≠ 0 ∧ size + c.length > maxSize
    · simp only [renderFragsF, if_pos h, List.mem_cons, List.mem_append,
        List.mem_map] at hp
      rcases hp with h1 | h2 | h3
      · rw [h1] at hb; cases hb
      · obtain ⟨f, _, hf⟩ := h2
        rw [← hf] at hb; cases hb
      · rcases h3 with h4 | h5
        · rw [h4]
        · exact ih 0 p h5 hb
    · simp only [renderFragsF, if_neg h, List.mem_cons] at hp
      rcases hp with h1 | h2
      · rw [h1] at hb; cases hb
      · exact ih (size + c.length) p h2 hb

/-- C3 (counterexample).  The claim states that in the sequential chunk
stream the size check is made only "after each batch's fragments are
exhausted".  On the concrete input of a single batch with fragments
`[0,0]` and `[0]` and maximum segment size 1, the code
(`jsonlSeqChunks`, lines 85-99 with `finalize` yielding nothing) emits the
boundary chunk immediately after the first fragment — in the middle of the
batch — whereas the per-batch rule stated by the claim
(`claimedPerBatchChunks`) would emit both fragments first and the boundary
after the batch.  The two outputs differ, refuting the claim as stated. -/
theorem c3_counterexample :
    jsonlSeqChunks 1 [[[0, 0], [0]]]
        = [([0, 0], false), ([], true), ([0], false)]
      ∧ claimedPerBatchChunks 1 [] [[[0, 0], [0]]] 0
        = [([0, 0], false), ([0], false), ([], true)]
      ∧ jsonlSeqChunks 1 [[[0, 0], [0]]]
        ≠ claimedPerBatchChunks 1 [] [[[0, 0], [0]]] 0 := by
  refine ⟨rfl, rfl, ?_⟩
  decide

/-- C3 (amended).  In the sequential chunk stream the size check happens
after each *fragment* is yielded and counted (not after each batch): the
controller's output is exactly the per-fragment rendering rule
`renderFragsF` applied to the flattened fragment stream — after any
fragment that lifts the cumulative counter above the configured maximum,
finalize's output is yielded as non-boundary chunks, then exactly one
boundary chunk, and the cumulative counter restarts from zero (the
`size` argument of the recursive call in `renderFragsF`) — followed by the
end-of-stream finalize output.  Moreover every boundary chunk carries an
empty byte payload. -/
theorem c3_per_fragment_boundary (maxSize : Nat) (fin : List Bytes)
    (bs : List (List Bytes)) :
    seqChunksF maxSize fin bs
        = renderFragsF maxSize fin bs.flatten 0
          ++ fin.map (fun f => (f, false))
      ∧ ∀ p ∈ seqChunksF maxSize fin bs, p.2 = true → p.1 = [] := by
  have heq : seqChunksF maxSize fin bs
      = renderFragsF maxSize fin bs.flatten 0
        ++ fin.map (fun f => (f, false)) := by
    simp [seqChunksF, seqChunksAuxF_eq_render]
  refine ⟨heq, ?_⟩
  intro p hp hb
  rw [heq] at hp
  rcases List.mem_append.mp hp with h1 | h2
  · exact renderFragsF_boundary_empty maxSize fin bs.flatten 0 p h1 hb
  · obtain ⟨f, _, hf⟩ := List.mem_map.mp h2
    rw [← hf] at hb
    cases hb

theorem splitRuns_ne_nil : ∀ l : List Chunk, splitRuns l ≠ [] := by
  intro l
  induction l with
  | nil => simp [splitRuns]
  | cons p rest ih =>
    match p with
    | (c, false) =>
      simp only [splitRuns]
      split <;> simp
    | (c, true) => simp [splitRuns]

theorem lastLen_single (c : Bytes) : lastLen [c] = c.length := by
  simp [lastLen]

theorem lastLen_cons_cons (c x : Bytes) (xs : List Bytes) :
    lastLen (c :: x :: xs) = lastLen (x :: xs) := by
  simp [lastLen, List.getLast?_cons_cons]

theorem splitRuns_map_false : ∀ xs : List Bytes,
    splitRuns (xs.map (fun x => (x, false))) = [xs] := by
  intro xs
  induction xs with
  | nil => rfl
  | cons x xs ih => simp [splitRuns, ih]

theorem splitRuns_map_false_append (L : List Chunk) : ∀ xs : List Bytes,
    splitRuns (xs.map (fun x => (x, false)) ++ ([], true) :: L)
      = xs :: splitRuns L := by
  intro xs
  induction xs with
  | nil => simp [splitRuns]
  | cons x xs ih => simp [splitRuns, ih]

theorem seqRuns_decompose (maxSize : Nat) (hm : maxSize ≠ 0)
    (fin : List Bytes) :
    ∀ (frags : List Bytes) (size : Nat), size ≤ maxSize →
      ∀ f rs,
        splitRuns (renderFragsF maxSize fin frags size
            ++ fin.map (fun x => (x, false))) = f :: rs →
        (∃ counted : List Bytes, f = counted ++ fin
            ∧ size + (counted.map List.length).sum
              ≤ maxSize + lastLen counted)
        ∧ ∀ r ∈ rs, ∃ counted : List Bytes, r = counted ++ fin
            ∧ (counted.map List.length).sum ≤ maxSize + lastLen counted := by
  intro frags
  induction frags with
  | nil =>
    intro size hs f rs heq
    rw [show renderFragsF maxSize fin [] size = [] from rfl,
      List.nil_append, splitRuns_map_false] at heq
    obtain ⟨hf, hrs⟩ := List.cons.injEq .. |>.mp heq
    subst hf
    subst hrs
    refine ⟨⟨[], by simp, ?_⟩, by simp⟩
    simp [lastLen]
    omega
  | cons c cs ih =>
    intro size hs f rs heq
    by_cases h : maxSize ≠ 0 ∧ size + c.length > maxSize
    · rw [show renderFragsF maxSize fin (c :: cs) size
            ++ fin.map (fun x => (x, false))
          = (c, false) :: (fin.map (fun x => (x, false))
            ++ ([], true) :: (renderFragsF maxSize fin cs 0
              ++ fin.map (fun x => (x, false)))) by
        simp [renderFragsF, h]] at heq
      cases hR : splitRuns (renderFragsF maxSize fin cs 0
          ++ fin.map (fun x => (x, false))) with
      | nil => exact absurd hR (splitRuns_ne_nil _)
      | cons f2 rs2 =>
        rw [show splitRuns ((c, false) :: (fin.map (fun x => (x, false))
              ++ ([], true) :: (renderFragsF maxSize fin cs 0
                ++ fin.map (fun x => (x, false)))))
            = (c :: fin) :: f2 :: rs2 by
          simp [splitRuns, splitRuns_map_false_append, hR]] at heq
        obtain ⟨hf, hrs⟩ := List.cons.injEq .. |>.mp heq
        subst hf
        subst hrs
        have hb := ih 0 (Nat.zero_le _) f2 rs2 hR
        refine ⟨⟨[c], rfl, ?_⟩, ?_⟩
        · simp [lastLen_single]
          omega
        · intro r hr
          rcases List.mem_cons.mp hr with h1 | h2
          · subst h1
            obtain ⟨counted, hc1, hc2⟩ := hb.1
            exact ⟨counted, hc1, by omega⟩
          · exact hb.2 r h2
    · have hle : size + c.length ≤ maxSize := by
        rcases Nat.lt_or_ge maxSize (size + c.length) with hgt | hge
        · exact absurd ⟨hm, hgt⟩ h
        · exact hge
      rw [show renderFragsF maxSize fin (c :: cs) size
            ++ fin.map (fun x => (x, false))
          = (c, false) :: (renderFragsF maxSize fin cs (size + c.length)
            ++ fin.map (fun x => (x, false))) by
        simp [renderFragsF, h]] at heq
      cases hR : splitRuns (renderFragsF maxSize fin cs (size + c.length)
          ++ fin.map (fun x => (x, false))) with
      | nil => exact absurd hR (splitRuns_ne_nil _)
      | cons f2 rs2 =>
        rw [show splitRuns ((c, false)
              :: (renderFragsF maxSize fin cs (size + c.length)
                ++ fin.map (fun x => (x, false))))
            = (c :: f2) :: rs2 by simp [splitRuns, hR]] at heq
        obtain ⟨hf, hrs⟩ := List.cons.injEq .. |>.mp heq
        subst hf
        subst hrs
        have hb := ih (size + c.length) hle f2 rs2 hR
        obtain ⟨counted2, hc1, hc2⟩ := hb.1
        refine ⟨⟨c :: counted2, by rw [hc1]; rfl, ?_⟩, hb.2⟩
        cases counted2 with
        | nil =>
          simp [lastLen_single, lastLen] at hc2 ⊢
          omega
        | cons x xs =>
          rw [lastLen_cons_cons]
          simp only [List.map_cons, List.sum_cons] at hc2 ⊢
          omega

/-- C4 (counterexample).  The claim quantifies over the generic sequential
controller (lines 83-96), which parquet and brotli-compressed JSONL use
as-is.  In those configurations the mid-stream `finalize` call emits bytes
(the parquet footer, lines 317-328; the brotli trailing bytes, line 104)
that are yielded into the run as non-boundary chunks *without being added
to `current_file_size`*.  Concretely, with maximum segment size 1 and a
finalize output of one two-byte fragment `[9, 9]`, the single counted
fragment `[7, 7]` (length 2) triggers the boundary, yet the run emitted
before the first boundary is `[[7, 7], [9, 9]]` with total length 4,
exceeding `S + 2 = 3` — the claim as stated is false. -/
theorem c4_counterexample :
    seqChunksF 1 [[9, 9]] [[[7, 7]]]
        = [([7, 7], false), ([9, 9], false), ([], true), ([9, 9], false)]
      ∧ [[7, 7], [9, 9]] ∈ splitRuns (seqChunksF 1 [[9, 9]] [[[7, 7]]])
      ∧ (([[7, 7], [9, 9]] : List Bytes).map List.length).sum
        > 1 + ([7, 7] : Bytes).length := by
  refine ⟨by decide, by decide, by decide⟩

/-- C4 (amended).  For every configured maximum segment size `S > 0`,
every finalize output and every input batch sequence, each run of
non-boundary fragments between two consecutive boundary chunks (or before
the first boundary, or after the last) consists of the fragments counted
toward the cumulative byte counter followed by the finalize output emitted
at the closing boundary (or at end of stream), and the *counted* prefix
exceeds `S` by at most the length of its last fragment — the one that
triggered the boundary — because the threshold comparison happens after a
fragment is yielded and counted, never before.  The uncounted finalize
bytes can push the full run further (see the counterexample); when the
configuration's mid-stream finalize yields no bytes (JSONL with
compression `None` or gzip, `fin = []`) the counted prefix is the whole
run and the original bound holds for the full run. -/
theorem c4_counted_run_bound (maxSize : Nat) (hm : 0 < maxSize)
    (fin : List Bytes) (bs : List (List Bytes)) :
    ∀ run ∈ splitRuns (seqChunksF maxSize fin bs),
      run.drop (run.length - fin.length) = fin
      ∧ ((run.take (run.length - fin.length)).map List.length).sum
        ≤ maxSize + lastLen (run.take (run.length - fin.length)) := by
  intro run hrun
  have heq : seqChunksF maxSize fin bs
      = renderFragsF maxSize fin bs.flatten 0
        ++ fin.map (fun x => (x, false)) := by
    simp [seqChunksF, seqChunksAuxF_eq_render]
  rw [heq] at hrun
  cases hR : splitRuns (renderFragsF maxSize fin bs.flatten 0
      ++ fin.map (fun x => (x, false))) with
  | nil => exact absurd hR (splitRuns_ne_nil _)
  | cons f rs =>
    have hb := seqRuns_decompose maxSize (Nat.pos_iff_ne_zero.mp hm) fin
      bs.flatten 0 (Nat.zero_le _) f rs hR
    rw [hR] at hrun
    have hrb : ∃ counted : List Bytes, run = counted ++ fin
        ∧ (counted.map List.length).sum ≤ maxSize + lastLen counted := by
      rcases List.mem_cons.mp hrun with h1 | h2
      · subst h1
        obtain ⟨counted, hc1, hc2⟩ := hb.1
        exact ⟨counted, hc1, by omega⟩
      · exact hb.2 run h2
    obtain ⟨counted, hc1, hc2⟩ := hrb
    subst hc1
    have hlen : (counted ++ fin).length - fin.length = counted.length := by
      simp
    rw [hlen, List.drop_left, List.take_left]
    exact ⟨rfl, hc2⟩

/-- C4 (witness): the amended theorem applied at the counterexample's own
configuration — maximum segment size 1, finalize output `[[9, 9]]`, one
batch with the single fragment `[7, 7]` — and its first run
`[[7, 7], [9, 9]]`: the run ends with the finalize output and its counted
prefix `[[7, 7]]` sums to 2, within the bound `1 + 2`. -/
theorem c4_counted_run_bound_witness :
    (([[7, 7], [9, 9]] : List Bytes).drop
        (([[7, 7], [9, 9]] : List Bytes).length
          - ([[9, 9]] : List Bytes).length) = [[9, 9]])
      ∧ (((([[7, 7], [9, 9]] : List Bytes).take
            (([[7, 7], [9, 9]] : List Bytes).length
              - ([[9, 9]] : List Bytes).length)).map List.length).sum
          ≤ 1 + lastLen (([[7, 7], [9, 9]] : List Bytes).take
            (([[7, 7], [9, 9]] : List Bytes).length
              - ([[9, 9]] : List Bytes).length))) :=
  c4_counted_run_bound 1 (by decide) [[9, 9]] [[[7, 7]]]
    [[7, 7], [9, 9]] (by decide)

theorem consumerBatch_eq_seq (maxSize : Nat) :
    ∀ (cs : List Bytes) (size : Nat),
      consumerBatch maxSize cs size = seqChunksBatchF maxSize [] cs size := by
  intro cs
  induction cs with
  | nil => intro size; rfl
  | cons c cs ih =>
    intro size
    by_cases h : maxSize ≠ 0 ∧ size + c.length > maxSize <;>
      simp [consumerBatch, seqChunksBatchF, h, ih]

theorem consumeFold_eq_seqAux (maxSize : Nat) :
    ∀ (bs : List (List Bytes)) (size : Nat),
      consumeFold maxSize bs size = seqChunksAuxF maxSize [] bs size := by
  intro bs
  induction bs with
  | nil => intro size; rfl
  | cons b bs ih =>
    intro size
    simp [consumeFold, seqChunksAuxF, consumerBatch_eq_seq, ih]

theorem consumeFold_append (maxSize : Nat) :
    ∀ (xs ys : List (List Bytes)) (size : Nat),
      consumeFold maxSize (xs ++ ys) size
        = ((consumeFold maxSize xs size).1
            ++ (consumeFold maxSize ys (consumeFold maxSize xs size).2).1,
           (consumeFold maxSize ys (consumeFold maxSize xs size).2).2) := by
  intro xs
  induction xs with
  | nil => intro ys size; simp [consumeFold]
  | cons x xs ih =>
    intro ys size
    simp [consumeFold, ih]

theorem pipeInv_init (bs : List (List Bytes)) (maxSize : Nat) :
    PipeInv bs maxSize initPipe := by
  refine ⟨Nat.le_refl 0, Nat.zero_le _, rfl, rfl, rfl⟩

theorem pipeInv_step (bs : List (List Bytes)) (maxSize : Nat)
    (s s' : PipeState) (hst : PipeStep bs maxSize s s')
    (hinv : PipeInv bs maxSize s) : PipeInv bs maxSize s' := by
  obtain ⟨h1, h2, h3, h4, h5⟩ := hinv
  cases hst with
  | submit hs1 hs2 =>
    have hsub : s.submitted - s.queue.length + s.queue.length = s.submitted :=
      Nat.sub_add_cancel h1
    refine ⟨?_, ?_, ?_, ?_, ?_⟩
    · simpa using Nat.succ_le_succ h1
    · simpa using hs1
    · simp only [List.length_append, List.length_cons, List.length_nil]
      have hc : s.submitted + 1 - (s.queue.length + (0 + 1))
          = s.submitted - s.queue.length := by omega
      rw [hc, List.range'_1_concat, ← h3, hsub]
    · simp only [List.length_append, List.length_cons, List.length_nil]
      have hc : s.submitted + 1 - (s.queue.length + (0 + 1))
          = s.submitted - s.queue.length := by omega
      rw [hc]
      exact h4
    · simp only [List.length_append, List.length_cons, List.length_nil]
      have hc : s.submitted + 1 - (s.queue.length + (0 + 1))
          = s.submitted - s.queue.length := by omega
      rw [hc]
      exact h5
  | complete j hj hnj =>
    exact ⟨h1, h2, h3, h4, h5⟩
  | consume j rest hq hc =>
    rw [hq] at h1 h3 h4 h5
    simp only [List.length_cons] at h1 h3 h4 h5
    rw [List.range'_succ] at h3
    obtain ⟨hj, hrest⟩ := List.cons.injEq .. |>.mp h3
    have hc' : s.submitted - rest.length
        = s.submitted - (rest.length + 1) + 1 := by omega
    have hlt : s.submitted - (rest.length + 1) < bs.length := by omega
    have htake : bs.take (s.submitted - (rest.length + 1) + 1)
        = bs.take (s.submitted - (rest.length + 1))
          ++ [bs.getD (s.submitted - (rest.length + 1)) []] := by
      rw [List.take_succ]
      congr 1
      rw [List.getElem?_eq_getElem hlt]
      simp [List.getD, List.getElem?_eq_getElem hlt]
    refine ⟨?_, ?_, ?_, ?_, ?_⟩
    · show rest.length ≤ s.submitted
      omega
    · exact h2
    · show rest = List.range' (s.submitted - rest.length) rest.length
      rw [hc']
      exact hrest
    · show s.out ++ (consumerBatch maxSize (bs.getD j []) s.size).1
        = (consumeFold maxSize (bs.take (s.submitted - rest.length)) 0).1
      rw [hc', htake, consumeFold_append, h4, h5, hj]
      simp [consumeFold]
    · show (consumerBatch maxSize (bs.getD j []) s.size).2
        = (consumeFold maxSize (bs.take (s.submitted - rest.length)) 0).2
      rw [hc', htake, consumeFold_append, h5, hj]
      simp [consumeFold]

theorem pipeInv_reach (bs : List (List Bytes)) (maxSize : Nat)
    (s : PipeState) (h : ReachPipe bs maxSize s) : PipeInv bs maxSize s := by
  induction h with
  | refl => exact pipeInv_init bs maxSize
  | tail _ hstep ih => exact pipeInv_step bs maxSize _ _ hstep ih

/-- C9.  In the parallel JSONL pipeline, for every sequence of input
batches and every order in which workers complete their jobs — any
interleaving of `submit`, `complete` and `consume` steps permitted by
`PipeStep` — a terminal state (everything submitted, queue drained) always
carries exactly the sequential path's output: the consumer drains the
bounded FIFO queue of futures in submission order, so worker completion
order cannot influence the emitted chunk sequence. -/
theorem c9_parallel_preserves_order (bs : List (List Bytes)) (maxSize : Nat)
    (s : PipeState) (h : ReachPipe bs maxSize s)
    (hsub : s.submitted = bs.length) (hq : s.queue = []) :
    s.out = jsonlSeqChunks maxSize bs := by
  obtain ⟨_, _, _, h4, _⟩ := pipeInv_reach bs maxSize s h
  rw [hq] at h4
  simp only [List.length_nil, Nat.sub_zero] at h4
  rw [hsub, List.take_length] at h4
  rw [h4, jsonlSeqChunks, seqChunksF, ← consumeFold_eq_seqAux]
  simp

/-- C9 (witness): two batches, with worker 1 finishing before worker 0;
the terminal state's output still lists batch 0's fragment first and
equals the sequential output. -/
theorem c9_parallel_preserves_order_witness :
    ReachPipe pipeBs 0 pipeFinal
      ∧ pipeFinal.out = jsonlSeqChunks 0 pipeBs := by
  have step1 : PipeStep pipeBs 0 initPipe ⟨1, [0], [], [], 0⟩ :=
    PipeStep.submit initPipe (by decide) (by decide)
  have step2 : PipeStep pipeBs 0 ⟨1, [0], [], [], 0⟩ ⟨2, [0, 1], [], [], 0⟩ :=
    PipeStep.submit ⟨1, [0], [], [], 0⟩ (by decide) (by decide)
  have step3 : PipeStep pipeBs 0 ⟨2, [0, 1], [], [], 0⟩
      ⟨2, [0, 1], [1], [], 0⟩ :=
    PipeStep.complete ⟨2, [0, 1], [], [], 0⟩ 1 (by decide) (by decide)
  have step4 : PipeStep pipeBs 0 ⟨2, [0, 1], [1], [], 0⟩
      ⟨2, [0, 1], [0, 1], [], 0⟩ :=
    PipeStep.complete ⟨2, [0, 1], [1], [], 0⟩ 0 (by decide) (by decide)
  have step5 : PipeStep pipeBs 0 ⟨2, [0, 1], [0, 1], [], 0⟩
      ⟨2, [1], [0, 1], [([1], false)], 1⟩ :=
    PipeStep.consume ⟨2, [0, 1], [0, 1], [], 0⟩ 0 [1] rfl (by decide)
  have step6 : PipeStep pipeBs 0 ⟨2, [1], [0, 1], [([1], false)], 1⟩
      pipeFinal :=
    PipeStep.consume ⟨2, [1], [0, 1], [([1], false)], 1⟩ 1 [] rfl (by decide)
  have hreach : ReachPipe pipeBs 0 pipeFinal :=
    .tail (.tail (.tail (.tail (.tail (.tail .refl step1) step2) step3)
      step4) step5) step6
  exact ⟨hreach,
    c9_parallel_preserves_order pipeBs 0 pipeFinal hreach rfl rfl⟩

/-- C1 (counterexample).  The claim states that a worker that opens a
region by name "only closes its handle and never unlinks the region".  In
the code the worker's `finally` block (lines 369-371) calls both
`shm.close()` and `shm.unlink()`: the unlink event is present in the
worker's event list — both when the transform succeeds and when it fails —
refuting the claim as stated.  (The producer, which created the region,
only closes: lines 249-251.) -/
theorem c1_counterexample :
    (⟨ShmParty.worker, ShmAction.unlinkRegion⟩ : ShmEvent)
        ∈ workerShmEvents true
      ∧ (⟨ShmParty.worker, ShmAction.unlinkRegion⟩ : ShmEvent)
        ∈ workerShmEvents false := by
  decide

/-- C1 (amended).  For every shared-memory handoff, the region is unlinked
exactly once, but by the *worker* that opened it by name (in its
`finally` cleanup, also when transformation fails); the producer that
created the region only closes its local handle and never unlinks. -/
theorem c1_unlink_exactly_once_by_worker :
    (∀ ok : Bool,
        ((handoffEvents ok).filter
          (fun e => e.action == ShmAction.unlinkRegion)).length = 1)
      ∧ (∀ ok : Bool, ∀ e ∈ handoffEvents ok,
          e.action = ShmAction.unlinkRegion → e.party = ShmParty.worker)
      ∧ (∀ e ∈ producerShmEvents, e.action ≠ ShmAction.unlinkRegion)
      ∧ (∀ ok : Bool,
          ((workerShmEvents ok).filter
            (fun e => e.action == ShmAction.closeHandle)).length = 1) := by
  refine ⟨?_, ?_, ?_, ?_⟩
  · intro ok; cases ok <;> decide
  · intro ok; cases ok <;> decide
  · decide
  · intro ok; cases ok <;> decide

/-- C2 (counterexample).  The claim states that an unsupported compression
name raises a configuration error synchronously at construction time.  But
`get_stream_transformer "jsonlines"` with the unsupported compression name
`"zstd"` succeeds: the constructor (lines 65-69) merely stores the
lower-cased name without validating it; the `ValueError` is only raised by
`compress` (line 126) when the first batch is compressed. -/
theorem c2_counterexample :
    get_stream_transformer "jsonlines" (some "zstd") none false
      = .ok ⟨TKind.jsonl, some "zstd", false, none, none⟩ := by
  rfl

/-- C2 (amended).  An unsupported format name raises a configuration error
synchronously at construction, as does requesting the parquet format with
no schema; but an unsupported compression name is accepted at construction
and only raises a `ValueError` when `compress` is first called on a
content block (i.e. while the first batch is processed). -/
theorem c2_config_errors :
    (∀ (format : String) (compression : Option String)
        (schema : Option PaSchema) (inc : Bool),
        pyLower format ≠ "jsonlines" → pyLower format ≠ "parquet" →
        get_stream_transformer format compression schema inc
          = .error ("Unsupported format: " ++ format))
      ∧ (∀ (format : String) (compression : Option String) (inc : Bool),
          pyLower format = "parquet" →
          get_stream_transformer format compression none inc
            = .error "Schema is required for Parquet")
      ∧ (∀ (t : StreamTransformer) (b : Bytes) (c : String),
          t.compression = some c → c ≠ "gzip" → c ≠ "brotli" →
          t.compress b
            = .error ("Unsupported compression: '" ++ c ++ "'")) := by
  refine ⟨?_, ?_, ?_⟩
  · intro format compression schema inc h1 h2
    simp [get_stream_transformer, h1, h2]
  · intro format compression inc h
    have h1 : pyLower format ≠ "jsonlines" := by
      rw [h]; decide
    simp [get_stream_transformer, h1, h]
  · intro t b c hc h1 h2
    unfold StreamTransformer.compress
    rw [hc]
    split
    · rename_i heq
      exact absurd (Option.some.injEq .. |>.mp heq) h1
    · rename_i heq
      exact absurd (Option.some.injEq .. |>.mp heq) h2
    · rename_i heq
      cases heq
    · rename_i ostr hgz hbr h3
      injection h3 with h4
      rw [h4]

/-- C2 (witness): the format error, the missing-schema error, and the lazy
compression error, each at a concrete input. -/
theorem c2_config_errors_witness :
    get_stream_transformer "csv" none none false
        = .error "Unsupported format: csv"
      ∧ get_stream_transformer "parquet" none none false
        = .error "Schema is required for Parquet"
      ∧ StreamTransformer.compress ⟨TKind.jsonl, some "zstd", false, none, none⟩ [0]
        = .error "Unsupported compression: 'zstd'" :=
  ⟨c2_config_errors.1 "csv" none none false (by decide) (by decide),
   c2_config_errors.2.1 "parquet" none false (by decide),
   c2_config_errors.2.2 ⟨TKind.jsonl, some "zstd", false, none, none⟩ [0] "zstd"
     rfl (by decide) (by decide)⟩

/-- C5 (counterexample).  The claim states that *every* operation that
finishes the streaming compressor (flushing its trailing bytes) also
discards the internal compressor object.  `finalize` (lines 101-104) is
such an operation: on a brotli-configured transformer it yields
`self.brotli_compressor.finish()` — here flushing the pending trailing
bytes `[1, 2]` — but it never assigns `None` to `_brotli_compressor`,
which keeps referencing the finished compressor object.  Only
`finish_brotli_compressor` (lines 134-140) discards it. -/
theorem c5_counterexample :
    StreamTransformer.finalize
        ⟨TKind.jsonl, some "brotli", false, none, some ⟨[1, 2], false⟩⟩
        = .ok (⟨TKind.jsonl, some "brotli", false, none, some ⟨[], true⟩⟩,
               [[1, 2]])
      ∧ (⟨TKind.jsonl, some "brotli", false, none,
          some ⟨[], true⟩⟩ : StreamTransformer).brotliCompressor ≠ none := by
  exact ⟨rfl, by decide⟩

/-- C5 (amended).  `finish_brotli_compressor` flushes the compressor's
trailing bytes and discards the internal compressor object, so that a
later compression call lazily creates a fresh (unfinished, empty)
compressor; calling it when the configured scheme is not brotli raises a
`ValueError`.  (`finalize`, by contrast, finishes the compressor without
discarding it — see the counterexample.)  The `Option`-typed
`_brotli_compressor` slot holds at most one compressor state per
transformer instance. -/
theorem c5_finish_discards_compressor (t : StreamTransformer) :
    (t.compression ≠ some "brotli" →
      t.finish_brotli_compressor
        = .error "ValueError: Compression is not 'brotli'")
      ∧ (∀ c : BrotliC, t.compression = some "brotli" →
          t.brotliCompressor = some c → c.finished = false →
          t.finish_brotli_compressor
            = .ok ({ t with brotliCompressor := none }, [c.pending]))
      ∧ (∀ b : Bytes, t.compression = some "brotli" →
          t.brotliCompressor = none →
          t.compress b
            = .ok ({ t with brotliCompressor := some ⟨[], false⟩ }, b)) := by
  refine ⟨?_, ?_, ?_⟩
  · intro h
    simp [StreamTransformer.finish_brotli_compressor, h]
  · intro c hcomp hslot hfin
    simp [StreamTransformer.finish_brotli_compressor, hcomp,
      StreamTransformer.brotli_compressor, hslot, BrotliC.finish, hfin]
  · intro b hcomp hslot
    unfold StreamTransformer.compress
    rw [hcomp]
    simp [StreamTransformer.brotli_compressor, hslot, BrotliC.new,
      BrotliC.process, BrotliC.flush]

/-- C5 (witness): on a concrete brotli transformer holding a live
compressor with pending bytes `[5]`, `finish_brotli_compressor` flushes
`[5]` and leaves the slot empty; a subsequent `compress` recreates a
fresh compressor; and on a gzip transformer, finishing raises. -/
theorem c5_finish_discards_compressor_witness :
    StreamTransformer.finish_brotli_compressor
        ⟨TKind.jsonl, some "brotli", false, none, some ⟨[5], false⟩⟩
        = .ok (⟨TKind.jsonl, some "brotli", false, none, none⟩, [[5]])
      ∧ StreamTransformer.compress
        ⟨TKind.jsonl, some "brotli", false, none, none⟩ [7]
        = .ok (⟨TKind.jsonl, some "brotli", false, none, some ⟨[], false⟩⟩, [7])
      ∧ StreamTransformer.finish_brotli_compressor
        ⟨TKind.jsonl, some "gzip", false, none, none⟩
        = .error "ValueError: Compression is not 'brotli'" :=
  ⟨(c5_finish_discards_compressor
      ⟨TKind.jsonl, some "brotli", false, none, some ⟨[5], false⟩⟩).2.1
      ⟨[5], false⟩ rfl rfl rfl,
   (c5_finish_discards_compressor
      ⟨TKind.jsonl, some "brotli", false, none, none⟩).2.2 [7] rfl rfl,
   (c5_finish_discards_compressor
      ⟨TKind.jsonl, some "gzip", false, none, none⟩).1 (by decide)⟩

/-- C6 (counterexample).  The claim states that invalid byte sequences are
replaced with "the standard replacement character" (U+FFFD).  On the row
`{"a": "\ud800"}` the code does not raise, but the emitted line contains
`'?'` (code point 0x3F) in place of the lone surrogate and no U+FFFD
anywhere: CPython's `encode("utf-8", "replace")` (line 26) substitutes
`'?'` on encoding, not the Unicode replacement character. -/
theorem c6_counterexample :
    write_dict surrogateRow
        = .ok [123, 34, 97, 34, 58, 34, 63, 34, 125, 10]
      ∧ 0xFFFD ∉ [123, 34, 97, 34, 58, 34, 63, 34, 125, 10]
      ∧ 63 ∈ [123, 34, 97, 34, 58, 34, 63, 34, 125, 10] := by
  refine ⟨by decide, by decide, by decide⟩

/-- C6 (amended).  For every row dictionary whose strict JSON encoding
fails because of invalid text (a lone surrogate code point), the JSONL
codec does not raise: it recursively replaces the invalid code points in
all keys and values with `'?'` — the substitution character of the UTF-8
encoder's `"replace"` error handler — retries the strict encoder, and
yields the resulting newline-terminated line, in which every invalid
character is replaced rather than omitted (no surrogate survives and the
serialized length is preserved character for character). -/
theorem c6_surrogate_sanitized (r : JObj)
    (h : orjsonDumps (.obj r) = .error .invalidUtf8) :
    write_dict r
        = .ok (jserialize (.obj (replace_broken_unicodeObj r)) ++ [10])
      ∧ jhasSurr (.obj (replace_broken_unicodeObj r)) = false
      ∧ (jserialize (.obj (replace_broken_unicodeObj r))).length
        = (jserialize (.obj r)).length := by
  have hd : ¬ jdepth (.obj r) > 256 := by
    intro hgt
    simp [orjsonDumps, hgt] at h
  have hobj : replace_broken_unicode (.obj r)
      = .obj (replace_broken_unicodeObj r) := rfl
  have hns : jhasSurr (.obj (replace_broken_unicodeObj r)) = false := by
    rw [← hobj]
    exact jhasSurr_replace (.obj r)
  have hdep : jdepth (.obj (replace_broken_unicodeObj r)) = jdepth (.obj r) := by
    rw [← hobj]
    exact jdepth_replace (.obj r)
  have hok : orjsonDumps (.obj (replace_broken_unicodeObj r))
      = .ok (jserialize (.obj (replace_broken_unicodeObj r))) := by
    simp [orjsonDumps, hdep, hd, hns]
  have hlen : (jserialize (.obj (replace_broken_unicodeObj r))).length
      = (jserialize (.obj r)).length := by
    rw [← hobj]
    exact jserialize_length_replace (.obj r)
  refine ⟨?_, hns, hlen⟩
  unfold write_dict
  rw [h, hok]

/-- C6 (witness): the amended theorem applied to the concrete row
`{"a": "\ud800"}`, whose strict encoding fails with the invalid-unicode
error. -/
theorem c6_surrogate_sanitized_witness :
    write_dict surrogateRow
        = .ok (jserialize (.obj (replace_broken_unicodeObj surrogateRow))
          ++ [10])
      ∧ jhasSurr (.obj (replace_broken_unicodeObj surrogateRow)) = false
      ∧ (jserialize (.obj (replace_broken_unicodeObj surrogateRow))).length
        = (jserialize (.obj surrogateRow)).length :=
  c6_surrogate_sanitized surrogateRow (by decide)

theorem write_dict_ok_newline (r : JObj) (line : Bytes)
    (h : write_dict r = .ok line) : line.getLast? = some 10 := by
  cases horj : orjsonDumps (.obj r) with
  | ok out =>
    simp only [write_dict, horj] at h
    injection h with h1
    rw [← h1]
    exact List.getLast?_concat _
  | error e =>
    cases e with
    | recursionLimit =>
      by_cases hw : isWebVitals r = true
      · cases hdel : delNested r with
        | ok r2 =>
          cases horj2 : orjsonDumps (.obj r2) with
          | ok out2 =>
            simp only [write_dict, horj, hw, if_true, hdel, horj2] at h
            injection h with h1
            rw [← h1]
            exact List.getLast?_concat _
          | error e2 =>
            simp only [write_dict, horj, hw, if_true, hdel, horj2] at h
            cases e2 <;> simp at h
        | error de =>
          cases de with
          | keyError =>
            simp only [write_dict, horj, hw, if_true, hdel] at h
            injection h with h1
            rw [← h1]
            exact List.getLast?_concat _
          | typeError =>
            simp only [write_dict, horj, hw, if_true, hdel] at h
            simp at h
      · simp only [write_dict, horj, Bool.not_eq_true] at hw ⊢
        simp only [write_dict, horj, hw, Bool.false_eq_true, if_false] at h
        injection h with h1
        rw [← h1]
        exact List.getLast?_concat _
    | invalidUtf8 =>
      cases horj2 : orjsonDumps (.obj (replace_broken_unicodeObj r)) with
      | ok out2 =>
        simp only [write_dict, horj, horj2] at h
        injection h with h1
        rw [← h1]
        exact List.getLast?_concat _
      | error e2 =>
        simp only [write_dict, horj, horj2] at h
        cases e2 <;> simp at h

/-- C7 (counterexample).  The claim states that on recursion-limit
failures the JSONL codec "never aborts the stream".  On the concrete
`$web_vitals` row that has the expected
`properties.$web_vitals_INP_event.attribution.interactionTargetElement`
subtree *and* a sibling value nested 260 containers deep, the code takes
the structural-repair branch (lines 160-170), deletes the subtree, retries
strict orjson — and that retry fails again with the recursion-limit error,
which propagates uncaught out of `_write_dict` (there is no fallback after
the successful deletion), aborting the stream. -/
theorem c7_counterexample :
    isWebVitals webVitalsDeepRow = true
      ∧ write_dict webVitalsDeepRow = .error .jsonRecursion := by
  exact ⟨by decide, by decide⟩

/-- C7 (amended).  For every row whose strict encoding fails with the
recursion-limit error, the JSONL codec behaves as follows: a row that is
not a `$web_vitals` event is encoded with the slower depth-unlimited
stdlib encoder; a `$web_vitals` event whose expected nested subtree is
missing (`KeyError` from the deletion chain) likewise falls back to the
stdlib encoder; a `$web_vitals` event with the expected subtree has the
subtree deleted and the strict encoder retried, and the result of that
retry — including a renewed failure, which aborts the stream — is what the
codec returns.  Every successfully produced line is newline-terminated,
but the stream *can* abort (see the counterexample), so "never aborts" had
to be weakened. -/
theorem c7_recursion_fallbacks (r : JObj)
    (h : orjsonDumps (.obj r) = .error .recursionLimit) :
    (isWebVitals r = false →
        write_dict r = .ok (json_dumps_stdlib (.obj r) ++ [10]))
      ∧ (isWebVitals r = true → delNested r = .error .keyError →
          write_dict r = .ok (json_dumps_stdlib (.obj r) ++ [10]))
      ∧ (∀ r2, isWebVitals r = true → delNested r = .ok r2 →
          write_dict r
            = match orjsonDumps (.obj r2) with
              | .ok out => .ok (out ++ [10])
              | .error .recursionLimit => .error .jsonRecursion
              | .error .invalidUtf8 => .error .jsonInvalid)
      ∧ (∀ line, write_dict r = .ok line → line.getLast? = some 10) := by
  refine ⟨?_, ?_, ?_, fun line => write_dict_ok_newline r line⟩
  · intro hw
    unfold write_dict
    rw [h]
    simp [hw]
  · intro hw hdel
    unfold write_dict
    rw [h]
    simp [hw, hdel]
  · intro r2 hw hdel
    unfold write_dict
    rw [h]
    simp [hw, hdel]

/-- C7 (witness): a non-`$web_vitals` row nested 259 containers deep fails
strict encoding with the recursion-limit error and is encoded by the
stdlib fallback into a newline-terminated line. -/
theorem c7_recursion_fallbacks_witness :
    write_dict plainDeepRow
      = .ok (json_dumps_stdlib (.obj plainDeepRow) ++ [10]) :=
  (c7_recursion_fallbacks plainDeepRow (by decide)).1 (by decide)

/-- C8 (counterexample).  The claim states that every row of every batch
produces exactly one newline-terminated output line and no row is ever
dropped silently.  A one-row batch whose only column is `"_inserted_at"`
refutes it: after `transform_batch` drops that column, `to_pylist` yields
one empty dict per row, and the `if not record_dict: continue` guard in
`write_batch` (lines 190-191) silently skips it — one input row, zero
output lines, no error. -/
theorem c8_counterexample :
    StreamTransformer.transform_batch jsonl_write_batch
        ⟨TKind.jsonl, none, false, none, none⟩
        ⟨1, [("_inserted_at", [JVal.null])]⟩ = .ok []
      ∧ (⟨1, [("_inserted_at", [JVal.null])]⟩ : RecordBatch).numRows = 1 := by
  exact ⟨by decide, rfl⟩

theorem writeRows_lines (rows : List JObj) :
    ∀ out : List Bytes, writeRows rows = .ok out →
      out.length = (rows.filter (fun r => !isEmptyObj r)).length
      ∧ ∀ line ∈ out, line.getLast? = some 10 := by
  induction rows with
  | nil =>
    intro out h
    simp only [writeRows] at h
    injection h with h1
    rw [← h1]
    simp
  | cons r rs ih =>
    intro out h
    by_cases he : isEmptyObj r = true
    · simp only [writeRows, he, if_true] at h
      have := ih out h
      simpa [he] using this
    · simp only [Bool.not_eq_true] at he
      simp only [writeRows, he, Bool.false_eq_true, if_false] at h
      cases hd : write_dict r with
      | error e => rw [hd] at h; cases h
      | ok line =>
        rw [hd] at h
        cases hrs : writeRows rs with
        | error e => rw [hrs] at h; cases h
        | ok rest =>
          rw [hrs] at h
          injection h with h1
          obtain ⟨ih1, ih2⟩ := ih rest hrs
          rw [← h1]
          refine ⟨by simp [he, ih1], ?_⟩
          intro l hl
          rcases List.mem_cons.mp hl with h2 | h3
          · rw [h2]
            exact write_dict_ok_newline r line hd
          · exact ih2 l h3

/-- C8 (amended).  For every input batch whose JSONL encoding succeeds,
every row that is a *non-empty* dict produces exactly one
newline-terminated output line; rows that are empty dicts (falsy in
Python) are silently skipped by the `if not record_dict: continue` guard,
so the output has exactly one line per non-empty row. -/
theorem c8_one_line_per_nonempty_row (b : RecordBatch) (out : List Bytes)
    (h : jsonl_write_batch b = .ok out) :
    out.length = (b.to_pylist.filter (fun r => !isEmptyObj r)).length
      ∧ ∀ line ∈ out, line.getLast? = some 10 :=
  writeRows_lines b.to_pylist out h

/-- C8 (witness): a concrete two-row, one-column batch produces exactly
two newline-terminated lines. -/
theorem c8_one_line_per_nonempty_row_witness :
    jsonl_write_batch ⟨2, [("a", [JVal.null, JVal.null])]⟩
        = .ok [[123, 34, 97, 34, 58, 110, 117, 108, 108, 125, 10],
               [123, 34, 97, 34, 58, 110, 117, 108, 108, 125, 10]]
      ∧ ([[123, 34, 97, 34, 58, 110, 117, 108, 108, 125, 10],
          [123, 34, 97, 34, 58, 110, 117, 108, 108, 125, 10]] : List Bytes).length
        = ((⟨2, [("a", [JVal.null, JVal.null])]⟩ : RecordBatch).to_pylist.filter
            (fun r => !isEmptyObj r)).length :=
  ⟨by decide,
   (c8_one_line_per_nonempty_row ⟨2, [("a", [JVal.null, JVal.null])]⟩
      [[123, 34, 97, 34, 58, 110, 117, 108, 108, 125, 10],
       [123, 34, 97, 34, 58, 110, 117, 108, 108, 125, 10]] (by decide)).1⟩

theorem select_column_names (b : RecordBatch) :
    ∀ names : List String, (∀ n ∈ names, n ∈ b.column_names) →
      (b.select names).column_names = names := by
  intro names
  induction names with
  | nil => intro _; rfl
  | cons n ns ih =>
    intro hmem
    have hn : n ∈ b.column_names := hmem n (List.mem_cons_self n ns)
    obtain ⟨c, hc, hcn⟩ := List.mem_map.mp hn
    have hfind : ∃ c', b.cols.find? (fun c' => c'.1 == n) = some c' := by
      have : (b.cols.find? (fun c' => c'.1 == n)).isSome := by
        rw [List.find?_isSome]
        exact ⟨c, hc, by simp [hcn]⟩
      exact Option.isSome_iff_exists.mp this
    obtain ⟨c', hc'⟩ := hfind
    have hc'n : c'.1 = n := by
      have := List.find?_some hc'
      simpa using this
    have htail : (b.select ns).column_names = ns :=
      ih (fun m hm => hmem m (List.mem_cons_of_mem n hm))
    simp only [RecordBatch.select, RecordBatch.column_names,
      List.filterMap_cons, hc'] at htail ⊢
    simp [hc'n, htail]

/-- C10.  With `include_inserted_at` false (the default), `transform_batch`
requires the batch to contain a column named `"_inserted_at"`: when the
column is absent the `list.index` lookup raises `ValueError` (the batch is
not passed through unchanged), and when it is present the batch handed to
`write_batch` is the selection whose column list is the original with the
first `"_inserted_at"` entry removed. -/
theorem c10_inserted_at_required
    (write_batch : RecordBatch → Except PyErr (List Bytes))
    (t : StreamTransformer) (batch : RecordBatch)
    (hinc : t.includeInsertedAt = false) :
    ("_inserted_at" ∉ batch.column_names →
        t.transform_batch write_batch batch = .error .valueError)
      ∧ (∀ i, batch.column_names.findIdx? (fun n => n == "_inserted_at")
            = some i →
          t.transform_batch write_batch batch
              = write_batch (batch.select (batch.column_names.eraseIdx i))
            ∧ (batch.select (batch.column_names.eraseIdx i)).column_names
              = batch.column_names.eraseIdx i) := by
  constructor
  · intro hmem
    have hnone : batch.column_names.findIdx? (fun n => n == "_inserted_at")
        = none := by
      rw [List.findIdx?_eq_none_iff]
      intro x hx
      simp only [beq_eq_false_iff_ne, ne_eq]
      intro heq
      rw [heq] at hx
      exact hmem hx
    simp [StreamTransformer.transform_batch, hinc, hnone]
  · intro i hi
    refine ⟨by simp [StreamTransformer.transform_batch, hinc, hi], ?_⟩
    refine select_column_names batch _ (fun n hn => ?_)
    exact (List.eraseIdx_subset _ i) hn

/-- C10 (witness): a batch lacking `"_inserted_at"` raises `ValueError`;
one containing it is passed on with the column removed. -/
theorem c10_inserted_at_required_witness :
    StreamTransformer.transform_batch jsonl_write_batch
        ⟨TKind.jsonl, none, false, none, none⟩ ⟨1, [("a", [JVal.null])]⟩
        = .error .valueError
      ∧ (RecordBatch.select ⟨1, [("a", [JVal.null]), ("_inserted_at", [JVal.null])]⟩
          ((["a", "_inserted_at"] : List String).eraseIdx 1)).column_names
        = ["a"] :=
  ⟨(c10_inserted_at_required jsonl_write_batch
      ⟨TKind.jsonl, none, false, none, none⟩ ⟨1, [("a", [JVal.null])]⟩ rfl).1
      (by decide),
   ((c10_inserted_at_required jsonl_write_batch
      ⟨TKind.jsonl, none, false, none, none⟩
      ⟨1, [("a", [JVal.null]), ("_inserted_at", [JVal.null])]⟩ rfl).2 1
      (by decide)).2⟩

/-- C1 (witness): the amended theorem applied at a concrete handoff with a
successful transform, and at the concrete worker unlink event. -/
theorem c1_unlink_exactly_once_by_worker_witness :
    ((handoffEvents true).filter
        (fun e => e.action == ShmAction.unlinkRegion)).length = 1
      ∧ (⟨ShmParty.worker, ShmAction.unlinkRegion⟩ : ShmEvent).party
        = ShmParty.worker :=
  ⟨c1_unlink_exactly_once_by_worker.1 true,
   c1_unlink_exactly_once_by_worker.2.1 true
     ⟨ShmParty.worker, ShmAction.unlinkRegion⟩ (by decide) rfl⟩

/-- C3 (witness): the amended theorem applied at a concrete input with
maximum segment size 1, finalize output `[[9]]` and one two-fragment
batch, and at the concrete boundary chunk of that output. -/
theorem c3_per_fragment_boundary_witness :
    seqChunksF 1 [[9]] [[[0, 0], [0]]]
        = renderFragsF 1 [[9]] (List.flatten [[[0, 0], [0]]]) 0
          ++ ([[9]] : List Bytes).map (fun f => (f, false))
      ∧ (([], true) : Chunk).1 = [] :=
  ⟨(c3_per_fragment_boundary 1 [[9]] [[[0, 0], [0]]]).1,
   (c3_per_fragment_boundary 1 [[9]] [[[0, 0], [0]]]).2 ([], true)
     (by decide) rfl⟩
